import Mathlib

/-!
A shallow embedding of the write-ahead transaction manager of
`storage/file/transactionmanager.go` (package `file` of EliasDB), together
with proofs about its operations.

Modelling conventions:
* Go `*Record` pointers shared between the manager's slots and the owning
  `StorageFile` are embedded as a heap `List Record` keyed by record id
  (the owner's cache keeps at most one live record object per id); slots
  store record ids, and mutation of a record goes through the heap, which
  models the pointer sharing.
* The `LogFile` interface is embedded as the in-memory test double the spec
  allows (§9 "a tagged variant (real file vs in-memory buffer) is
  sufficient"): a list of written items plus a failure schedule
  (`failAfter`): the write with index `failAfter` and all later ones fail.
  Byte-level framing is represented structurally (`LogItem`), since the
  `Record` serialisation code is not part of this repository's sources.
* Go runtime panics (nil-interface method call, index out of range) are
  modelled as the `MRes.panic` result; returned `error` values are
  `MRes.err`, carrying the state as it was left at the point of failure.
* Go map iteration order is unspecified; the embedding fixes first-insertion
  order via association lists.  All properties proved about the main file
  concern per-id contents, which are order-independent because ids are
  unique as map keys.
-/

set_option autoImplicit false

namespace EliasDB

/-- Failure values: the manager-specific `ErrBadMagic`, wrapped I/O errors
from the log (`logWrite`) and the owner (`ownerWrite`), a read error during
recovery (`ioRead`), and the two modelled Go runtime panics. -/
inductive Failure where
  | badMagic
  | logWrite (n : Nat)
  | ownerWrite (rid : Nat)
  | ioRead
  | panicIndex
  | panicNilLog
deriving DecidableEq, Repr

instance exceptDecEq {ε α : Type} [DecidableEq ε] [DecidableEq α] :
    DecidableEq (Except ε α) := fun x y =>
  match x, y with
  | .ok a, .ok b =>
      if h : a = b then isTrue (by rw [h])
      else isFalse (by intro hc; cases hc; exact h rfl)
  | .error a, .error b =>
      if h : a = b then isTrue (by rw [h])
      else isFalse (by intro hc; cases hc; exact h rfl)
  | .ok _, .error _ => isFalse (by intro hc; cases hc)
  | .error _, .ok _ => isFalse (by intro hc; cases hc)

/-- Modelled from the spec: the `Record` value (§3, §4.1) — the record
implementation file is not under the given sources.  A record has an id, a
byte image, a dirty flag and an in-transaction counter. -/
structure Record where
  rid : Nat
  payload : List Nat
  dirty : Bool
  transCount : Int
deriving DecidableEq, Repr

/-- Modelled from the spec (§4.1): `incTransCount()`. -/
def Record.incTransCount (r : Record) : Record :=
  { r with transCount := r.transCount + 1 }

/-- Modelled from the spec (§4.1): `decTransCount()`. -/
def Record.decTransCount (r : Record) : Record :=
  { r with transCount := r.transCount - 1 }

/-- Modelled from the spec (§3): `inTransaction() ≡ transCount > 0`. -/
def Record.inTransaction (r : Record) : Bool :=
  0 < r.transCount

/-- Modelled from the spec (§4.1): `clearDirty()`. -/
def Record.clearDirty (r : Record) : Record :=
  { r with dirty := false }

/-- Lookup in an association list keyed by `Nat` (first match). -/
def assocGet {α : Type} : List (Nat × α) → Nat → Option α
  | [], _ => none
  | (k', v) :: rest, k => if k' = k then some v else assocGet rest k

/-- Update-or-append in an association list: replaces the first binding of
`k` in place, keeping insertion order, or appends a new binding. This embeds
Go `map` assignment (`m[k] = v`). -/
def assocSet {α : Type} : List (Nat × α) → Nat → α → List (Nat × α)
  | [], k, v => [(k, v)]
  | (k', v') :: rest, k, v =>
      if k' = k then (k', v) :: rest else (k', v') :: assocSet rest k v

/-- Modelled from the spec (§6): the owning `StorageFile` collaborator —
its implementation file is not under the given sources.  `mainFile` maps a
record id to the image applied at its canonical offset; `failIds` is the
test double's failure schedule for `writeRecord`; `releases` is the
chronological list of `releaseInTrans(record, dirty)` calls; `syncs` counts
`Sync()` calls on the main file. -/
structure StorageFile where
  mainFile : List (Nat × List Nat)
  failIds : List Nat
  releases : List (Nat × Bool)
  syncs : Nat
deriving DecidableEq, Repr

/-- Modelled from the spec (§6): `writeRecord(record)` applies the record
image to its canonical offset, or fails (test double: for ids in
`failIds`). -/
def StorageFile.writeRecord (o : StorageFile) (r : Record) :
    Except Failure StorageFile :=
  if r.rid ∈ o.failIds then .error (.ownerWrite r.rid)
  else .ok { o with mainFile := assocSet o.mainFile r.rid r.payload }

/-- Modelled from the spec (§6): `releaseInTrans(record, dirty)` releases
the record from the in-use set; the call is recorded. -/
def StorageFile.releaseInTrans (o : StorageFile) (r : Record) (d : Bool) :
    StorageFile :=
  { o with releases := o.releases ++ [(r.rid, d)] }

/-- Modelled from the spec (§6): `sync()` fsyncs the main data file. -/
def StorageFile.sync (o : StorageFile) : StorageFile :=
  { o with syncs := o.syncs + 1 }

/-- One item written to the transaction log after the magic header: a
little-endian int64 record count, or a serialised record image.  This is
the structural rendering of the byte format of §4.4. -/
inductive LogItem where
  | count (n : Int)
  | image (r : Record)
deriving DecidableEq, Repr

/-- The two magic header bytes `{0x66, 0x42}` (`TRANSACTION_LOG_HEADER`). -/
def TRANSACTION_LOG_HEADER : List Nat := [0x66, 0x42]

/-- The in-memory embedding of a transaction log file: the header bytes
actually present, the items written after them, and the test double's write
failure schedule (`failAfter = some k` makes write number `k` and all later
writes fail). -/
structure LogFile where
  magic : List Nat
  contents : List LogItem
  failAfter : Option Nat
  writesDone : Nat
deriving DecidableEq, Repr

/-- A single write call on the log file, which may fail according to the
failure schedule.  A failed write appends nothing. -/
def LogFile.write (lf : LogFile) (item : LogItem) : Except Failure LogFile :=
  match lf.failAfter with
  | some k =>
      if k ≤ lf.writesDone then .error (.logWrite lf.writesDone)
      else .ok { lf with contents := lf.contents ++ [item],
                         writesDone := lf.writesDone + 1 }
  | none => .ok { lf with contents := lf.contents ++ [item],
                          writesDone := lf.writesDone + 1 }

/-- `DEFAULT_TRANS_IN_LOG` from the source. -/
def DEFAULT_TRANS_IN_LOG : Nat := 10

/-- The `TransactionManager` state (fields `logFile`, `curTrans`,
`transList`, `maxTrans`, `owner` from the source struct).  `diskLog` models
the on-disk log file at `t.name` as visible to `recover()` when the handle
is closed (`none` = file missing); `heap` holds the shared record objects
(see module comment). -/
structure TransactionManager where
  logFile : Option LogFile
  diskLog : Option LogFile
  curTrans : Int
  transList : List (Option (List Nat))
  maxTrans : Nat
  heap : List Record
  owner : StorageFile
deriving DecidableEq, Repr

/-- Result of a manager operation: success, a returned Go `error` (with the
state as the operation left it), or a Go runtime panic. -/
inductive MRes where
  | ok (t : TransactionManager)
  | err (t : TransactionManager) (e : Failure)
  | panic (e : Failure)
deriving DecidableEq, Repr

/-- First record with the given id in the heap. -/
def heapGet : List Record → Nat → Option Record
  | [], _ => none
  | r :: rest, rid => if r.rid = rid then some r else heapGet rest rid

/-- Mutate the (first) record with the given id in the heap; no-op when the
id is absent (slots only ever hold heap-resident ids, as Go slots hold live
pointers). -/
def heapModify : List Record → Nat → (Record → Record) → List Record
  | [], _, _ => []
  | r :: rest, rid, f =>
      if r.rid = rid then f r :: rest else r :: heapModify rest rid f

/-- Heap lookup with a default placeholder (never hit for heap-resident
ids). -/
def heapGetD (h : List Record) (rid : Nat) : Record :=
  (heapGet h rid).getD ⟨rid, [], false, 0⟩

/-- The header-only log file produced by `open()` (create-or-truncate,
write magic, fsync). -/
def freshLog : LogFile := ⟨TRANSACTION_LOG_HEADER, [], none, 0⟩

/-- `open()`: truncate/create the log, write the magic header (write and
sync errors are ignored by the source), set `curTrans = -1`. -/
def TransactionManager.openLog (t : TransactionManager) : TransactionManager :=
  { t with logFile := some freshLog, curTrans := -1 }

/-- `syncFile()`: `t.logFile.Sync()` — the sync error is ignored, but a nil
handle is dereferenced (modelled as `none` = panic). -/
def TransactionManager.syncFile (t : TransactionManager) :
    Option TransactionManager :=
  match t.logFile with
  | none => none
  | some _ => some t

/-- `close()`: `syncFile()` (panics on a nil handle), then `Close()` with
the error ignored, then `logFile = nil`.  Closing persists the handle's
contents as the on-disk log. -/
def TransactionManager.close (t : TransactionManager) :
    Option TransactionManager :=
  match t.syncFile with
  | none => none
  | some t1 => some { t1 with diskLog := t1.logFile, logFile := none }

/-- `t.transList[t.curTrans] = make([]*Record, 0, DEFAULT_TRANS_SIZE)`:
allocate a fresh empty slot at the current index, panicking when the index
is out of range. -/
def TransactionManager.populateSlot (t : TransactionManager) : MRes :=
  if 0 ≤ t.curTrans ∧ t.curTrans.toNat < t.transList.length then
    .ok { t with transList := t.transList.set t.curTrans.toNat (some []) }
  else .panic .panicIndex

/-- The coalescing scan of one slot during `syncLogFromMemory`: records
already keyed in `recMap` get `DecTransCount()`, new ids are inserted
(first-seen order). -/
def drainRecs (heap : List Record) (m : List Nat) :
    List Nat → List Record × List Nat
  | [] => (heap, m)
  | rid :: rest =>
      if rid ∈ m then drainRecs (heapModify heap rid Record.decTransCount) m rest
      else drainRecs heap (m ++ [rid]) rest

/-- The slot loop of `syncLogFromMemory`: scan non-nil slots in order,
coalescing into `recMap`, and set each scanned slot to nil. -/
def drainSlots (heap : List Record) (m : List Nat) :
    List (Option (List Nat)) →
    List Record × List Nat × List (Option (List Nat))
  | [] => (heap, m, [])
  | none :: rest =>
      let (h1, m1, r1) := drainSlots heap m rest
      (h1, m1, none :: r1)
  | some slot :: rest =>
      let (h1, m1) := drainRecs heap m slot
      let (h2, m2, r2) := drainSlots h1 m1 rest
      (h2, m2, none :: r2)

/-- `syncRecords(records, clearMemTransLog = true)` — the drain call site:
the map's values are live heap pointers, so each record is resolved from
the heap; after a successful `writeRecord` the record's count is
decremented and, when it leaves transaction, `releaseInTrans(record, true)`
is called.  An error from `writeRecord` is returned at once. -/
def syncRecordsLive (t : TransactionManager) : List Nat → MRes
  | [] => .ok t
  | rid :: rest =>
      match t.owner.writeRecord (heapGetD t.heap rid) with
      | .error e => .err t e
      | .ok o1 =>
          let h1 := heapModify t.heap rid Record.decTransCount
          let rNow := heapGetD h1 rid
          let o2 := if rNow.inTransaction then o1
                    else o1.releaseInTrans rNow true
          syncRecordsLive { t with owner := o2, heap := h1 } rest

/-- `syncRecords(records, clearMemTransLog = false)` — the recovery call
site: the map's values are fresh record values read from disk (not heap
resident); each is written through and trans-counts are not touched.  An
error from `writeRecord` is returned at once. -/
def syncRecordsVals (t : TransactionManager) : List (Nat × Record) → MRes
  | [] => .ok t
  | (_, r) :: rest =>
      match t.owner.writeRecord r with
      | .error e => .err t e
      | .ok o1 => syncRecordsVals { t with owner := o1 } rest

/-- `syncLogFromMemory()`: close the log (panic on nil handle), coalesce
all slots into `recMap` clearing them, apply via `syncRecords(_, true)`,
fsync the main file, reopen an empty log. -/
def TransactionManager.syncLogFromMemory (t : TransactionManager) : MRes :=
  match t.close with
  | none => .panic .panicNilLog
  | some t1 =>
      let (h1, m, slots1) := drainSlots t1.heap [] t1.transList
      let t2 := { t1 with heap := h1, transList := slots1 }
      match syncRecordsLive t2 m with
      | .err t3 e => .err t3 e
      | .panic e => .panic e
      | .ok t3 =>
          .ok (TransactionManager.openLog { t3 with owner := t3.owner.sync })

/-- `start()`: increment `curTrans`; at capacity run `syncLogFromMemory()`
as a bare statement — its returned error is discarded (a panic still
propagates) — and set `curTrans = 0`; then allocate the fresh slot. -/
def TransactionManager.start (t : TransactionManager) : MRes :=
  let t1 := { t with curTrans := t.curTrans + 1 }
  if (t1.maxTrans : Int) ≤ t1.curTrans then
    match t1.syncLogFromMemory with
    | .panic e => .panic e
    | .ok t2 => TransactionManager.populateSlot { t2 with curTrans := 0 }
    | .err t2 _ => TransactionManager.populateSlot { t2 with curTrans := 0 }
  else
    t1.populateSlot

/-- `add(record)`: `record.IncTransCount()`, then append the record to
`t.transList[t.curTrans]` (Go appends to a nil slice as to an empty one, and
panics when the index is out of range). -/
def TransactionManager.add (t : TransactionManager) (rid : Nat) : MRes :=
  let t1 := { t with heap := heapModify t.heap rid Record.incTransCount }
  if 0 ≤ t1.curTrans ∧ t1.curTrans.toNat < t1.transList.length then
    let slot := (t1.transList.getD t1.curTrans.toNat none).getD []
    .ok { t1 with transList :=
            t1.transList.set t1.curTrans.toNat (some (slot ++ [rid])) }
  else .panic .panicIndex

/-- The record-writing loop of `commit()`: write each record image of the
slot to the log, stopping at the first failed write (the log keeps the
records appended so far). -/
def writeRecs (heap : List Record) (lf : LogFile) :
    List Nat → LogFile × Option Failure
  | [] => (lf, none)
  | rid :: rest =>
      match lf.write (.image (heapGetD heap rid)) with
      | .error e => (lf, some e)
      | .ok lf1 => writeRecs heap lf1 rest

/-- The log-writing part of `commit()` once the slot has been read and the
log handle found non-nil: write the record count, write each record,
`syncFile()` (sync error ignored), then clear every slot record's dirty
flag.  Write errors are returned with the slot, the heap and the counters
untouched. -/
def commitBody (t : TransactionManager) (lf : LogFile) (slot : List Nat) :
    MRes :=
  match lf.write (.count slot.length) with
  | .error e => .err t e
  | .ok lf1 =>
      match writeRecs t.heap lf1 slot with
      | (lf2, some e) => .err { t with logFile := some lf2 } e
      | (lf2, none) =>
          .ok { t with logFile := some lf2,
                       heap := slot.foldl
                         (fun h rid => heapModify h rid Record.clearDirty)
                         t.heap }

/-- `commit()`: read the current slot (panic when `curTrans` is out of
range — the index is evaluated before the nil log handle would be), then
run the log writes of `commitBody`. -/
def TransactionManager.commit (t : TransactionManager) : MRes :=
  if 0 ≤ t.curTrans ∧ t.curTrans.toNat < t.transList.length then
    match t.logFile with
    | none => .panic .panicNilLog
    | some lf => commitBody t lf ((t.transList.getD t.curTrans.toNat none).getD [])
  else .panic .panicIndex

/-- The per-frame reading loop of `recover()`: read `n` records, inserting
each into the per-frame `recMap` keyed by id; a later duplicate overwrites
the earlier binding.  Fails (`none`) when fewer than `n` records are
readable. -/
def readFrame : Nat → List (Nat × Record) → List LogItem →
    Option (List (Nat × Record) × List LogItem)
  | 0, acc, rest => some (acc, rest)
  | n + 1, acc, (.image r) :: rest => readFrame n (assocSet acc r.rid r) rest
  | _ + 1, _, _ => none

theorem readFrame_length_le : ∀ (n : Nat) (acc : List (Nat × Record))
    (items : List LogItem) (m : List (Nat × Record)) (rest' : List LogItem),
    readFrame n acc items = some (m, rest') → rest'.length ≤ items.length := by
  intro n
  induction n with
  | zero =>
      intro acc items m rest' h
      simp only [readFrame] at h
      cases h
      exact Nat.le_refl _
  | succ k ih =>
      intro acc items m rest' h
      match items with
      | [] => simp [readFrame] at h
      | .count _ :: _ => simp [readFrame] at h
      | .image r :: rest =>
          simp only [readFrame] at h
          exact Nat.le_trans (ih _ _ _ _ h) (Nat.le_succ _)

/-- The frame loop of `recover()`: read a record count (`EOF` ends the
loop), read the frame's records into `recMap`, apply via
`syncRecords(recMap, false)` whose error is deliberately ignored by the
source ("If something goes wrong here ignore and try to do the rest"),
and continue with the next frame.  A truncated or malformed frame is a
returned read error.  The first argument is recursion fuel — each
iteration consumes at least the count item, so the fuel supplied by
`recover` (the item count) makes the exhaustion branch unreachable; it
only makes the recursion structural. -/
def recoverGo : Nat → TransactionManager → List LogItem → MRes
  | _, t, [] => .ok t
  | fuel + 1, t, .count n :: rest =>
      (match readFrame n.toNat [] rest with
      | none => .err t .ioRead
      | some (m, rest') =>
          match syncRecordsVals t m with
          | .ok t1 => recoverGo fuel t1 rest'
          | .err t1 _ => recoverGo fuel t1 rest'
          | .panic e => .panic e)
  | _ + 1, t, .image _ :: _ => .err t .ioRead
  | 0, t, _ :: _ => .err t .ioRead

/-- `recover()`: a missing log file is success; a wrong (or short) magic
header is `ErrBadMagic`; otherwise replay the frames. -/
def TransactionManager.recover (t : TransactionManager) : MRes :=
  match t.diskLog with
  | none => .ok t
  | some lf =>
      if lf.magic = TRANSACTION_LOG_HEADER then
        recoverGo lf.contents.length t lf.contents
      else .err t .badMagic

/-- The state built by the `NewTransactionManager` initialiser before
recovery: `curTrans = -1`, `maxTrans = DEFAULT_TRANS_IN_LOG` empty slots,
no open log handle, the given on-disk log. -/
def initManager (owner : StorageFile) (initialDisk : Option LogFile) :
    TransactionManager :=
  { logFile := none, diskLog := initialDisk, curTrans := -1,
    transList := List.replicate DEFAULT_TRANS_IN_LOG none,
    maxTrans := DEFAULT_TRANS_IN_LOG, heap := [], owner := owner }

/-- `NewTransactionManager(owner, doRecover)`: build the initial state, run
`recover()` when asked — any error other than `ErrBadMagic` aborts
construction — then `open()`. -/
def NewTransactionManager (owner : StorageFile) (doRecover : Bool)
    (initialDisk : Option LogFile) : Except Failure TransactionManager :=
  if doRecover then
    match (initManager owner initialDisk).recover with
    | .ok t1 => .ok t1.openLog
    | .err t1 e => if e = .badMagic then .ok t1.openLog else .error e
    | .panic e => .error e
  else .ok (initManager owner initialDisk).openLog

/-- The per-slot discarding loop of `syncLogFromDisk`: each record gets
`DecTransCount()`; when it leaves transaction,
`releaseInTrans(record, false)`. -/
def discardRecs (heap : List Record) (o : StorageFile) :
    List Nat → List Record × StorageFile
  | [] => (heap, o)
  | rid :: rest =>
      let h1 := heapModify heap rid Record.decTransCount
      let rNow := heapGetD h1 rid
      let o1 := if rNow.inTransaction then o else o.releaseInTrans rNow false
      discardRecs h1 o1 rest

/-- The slot loop of `syncLogFromDisk`: discard every non-nil slot's
records and set the slot to nil. -/
def discardSlots (heap : List Record) (o : StorageFile) :
    List (Option (List Nat)) →
    List Record × StorageFile × List (Option (List Nat))
  | [] => (heap, o, [])
  | none :: rest =>
      let (h1, o1, r1) := discardSlots heap o rest
      (h1, o1, none :: r1)
  | some slot :: rest =>
      let (h1, o1) := discardRecs heap o slot
      let (h2, o2, r2) := discardSlots h1 o1 rest
      (h2, o2, none :: r2)

/-- `syncLogFromDisk()` (rollback): close the log (panic on nil handle),
discard every slot's in-memory records, replay the on-disk log with
`recover()` (its error propagates), then reopen an empty log. -/
def TransactionManager.syncLogFromDisk (t : TransactionManager) : MRes :=
  match t.close with
  | none => .panic .panicNilLog
  | some t1 =>
      let (h1, o1, slots1) := discardSlots t1.heap t1.owner t1.transList
      let t2 := { t1 with heap := h1, owner := o1, transList := slots1 }
      match t2.recover with
      | .err t3 e => .err t3 e
      | .panic e => .panic e
      | .ok t3 => .ok t3.openLog

/-! ### Basic lemmas about the heap and association lists -/

theorem heapGet_heapModify (h : List Record) (x i : Nat) (f : Record → Record)
    (hf : ∀ r, (f r).rid = r.rid) :
    heapGet (heapModify h x f) i =
      if x = i then (heapGet h x).map f else heapGet h i := by
  induction h with
  | nil =>
      simp only [heapModify, heapGet]
      split <;> rfl
  | cons r rest ih =>
      simp only [heapModify]
      by_cases hr : r.rid = x
      · rw [if_pos hr]
        simp only [heapGet, hf r, hr]
        by_cases hxi : x = i
        · simp [hxi]
        · simp [hxi]
      · rw [if_neg hr]
        simp only [heapGet, ih]
        by_cases hri : r.rid = i
        · have hxi : ¬ x = i := fun hcon => hr (by rw [hcon, hri])
          simp [hri, hxi]
        · simp [hri, hr]

theorem assocGet_assocSet {α : Type} (m : List (Nat × α)) (k k' : Nat) (v : α) :
    assocGet (assocSet m k v) k' =
      if k = k' then some v else assocGet m k' := by
  induction m with
  | nil =>
      simp [assocSet, assocGet]
  | cons p rest ih =>
      obtain ⟨pk, pv⟩ := p
      by_cases hpk : pk = k
      · simp only [assocSet, if_pos hpk, assocGet]
        by_cases hkk : k = k'
        · simp [hpk, hkk]
        · have : ¬ pk = k' := fun hcon => hkk (hpk ▸ hcon)
          simp [this, hkk, assocGet]
      · simp only [assocSet, if_neg hpk, assocGet]
        by_cases hpk' : pk = k'
        · have : ¬ k = k' := fun hcon => hpk (by rw [hcon, hpk'])
          simp [hpk', this]
        · simp [hpk', ih]

/-! ### C1: commit write errors leave the transaction intact -/

/-- C1: if `commit()` encounters a write error while writing the record
count or any record image to the log (all of which happen before the sync),
it propagates that error and leaves the heap (dirty flags and
trans-counts), the slot list, the current-transaction pointer and the owner
untouched, so the transaction's records remain available for a later
drain. -/
theorem commit_error_preserves (t t' : TransactionManager) (e : Failure)
    (h : t.commit = .err t' e) :
    t'.heap = t.heap ∧ t'.transList = t.transList ∧
    t'.curTrans = t.curTrans ∧ t'.owner = t.owner ∧
    t'.diskLog = t.diskLog ∧ t'.maxTrans = t.maxTrans := by
  unfold TransactionManager.commit at h
  split at h
  · split at h
    · exact absurd h (by simp)
    · unfold commitBody at h
      split at h
      · simp only [MRes.err.injEq] at h
        obtain ⟨h1, _⟩ := h
        rw [← h1]
        exact ⟨rfl, rfl, rfl, rfl, rfl, rfl⟩
      · split at h
        · simp only [MRes.err.injEq] at h
          obtain ⟨h1, _⟩ := h
          rw [← h1]
          exact ⟨rfl, rfl, rfl, rfl, rfl, rfl⟩
        · exact absurd h (by simp)
  · exact absurd h (by simp)

/-- A state in which the very first log write of `commit()` fails: the log
file's failure schedule rejects write number `0`. -/
def commitFailState : TransactionManager :=
  { logFile := some ⟨TRANSACTION_LOG_HEADER, [], some 0, 0⟩,
    diskLog := some freshLog,
    curTrans := 0,
    transList := [some [7]],
    maxTrans := 1,
    heap := [⟨7, [65], true, 1⟩],
    owner := ⟨[], [], [], 0⟩ }

/-- Witness for C1 at a concrete state: the failing commit returns the
write error and preserves heap, slots, pointer and owner. -/
theorem commit_error_preserves_witness :
    commitFailState.commit = .err commitFailState (.logWrite 0) ∧
    (commitFailState.heap = commitFailState.heap ∧
     commitFailState.transList = commitFailState.transList ∧
     commitFailState.curTrans = commitFailState.curTrans ∧
     commitFailState.owner = commitFailState.owner ∧
     commitFailState.diskLog = commitFailState.diskLog ∧
     commitFailState.maxTrans = commitFailState.maxTrans) :=
  ⟨by decide,
   commit_error_preserves commitFailState commitFailState (.logWrite 0)
     (by decide)⟩

/-! ### C9: close is not idempotent — a second close dereferences nil -/

/-- A manager whose log handle has already been released. -/
def closedState : TransactionManager :=
  { logFile := none,
    diskLog := some freshLog,
    curTrans := -1,
    transList := [none],
    maxTrans := 1,
    heap := [],
    owner := ⟨[], [], [], 0⟩ }

/-- C9 counterexample: with `logFile` already absent, `close()` does not
succeed and leave the manager unchanged — `syncFile()` calls `Sync()` on a
nil handle, a nil dereference (modelled as `none`). -/
theorem close_not_idempotent_cex :
    closedState.logFile = none ∧
    closedState.close = none ∧
    closedState.close ≠ some closedState := by
  refine ⟨rfl, rfl, ?_⟩
  decide

/-- C9 amended: `close()` syncs (ignoring the sync error), closes the
handle (ignoring the close error) and sets `logFile` to absent, persisting
the handle's contents as the on-disk log; but it is not idempotent: called
with `logFile` already absent it dereferences the nil handle. -/
theorem close_semantics (t : TransactionManager) :
    (∀ lf, t.logFile = some lf →
       t.close = some { t with diskLog := some lf, logFile := none }) ∧
    (t.logFile = none → t.close = none) := by
  constructor
  · intro lf hlf
    simp only [TransactionManager.close, TransactionManager.syncFile, hlf]
  · intro hlf
    simp only [TransactionManager.close, TransactionManager.syncFile, hlf]

/-- Witness for C9's amended theorem at concrete states: one close of an
open handle succeeds and releases it; a close of an absent handle is the
nil dereference. -/
theorem close_semantics_witness :
    ({ closedState with logFile := some freshLog } :
        TransactionManager).close =
      some { closedState with diskLog := some freshLog, logFile := none } ∧
    closedState.close = none := by
  constructor
  · exact (close_semantics { closedState with logFile := some freshLog }).1
      freshLog rfl
  · exact (close_semantics closedState).2 rfl

/-! ### C10: add and commit require an open transaction -/

/-- C10: `add` and `commit` implicitly require `cur ≥ 0`: in the Fresh
state (`curTrans = -1`) both index slot `-1` of the slot list and panic
with an index-out-of-range; under the hypothesis `0 ≤ curTrans <
transList.length` the out-of-range branch is unreachable — `add` succeeds
and `commit` never raises the index panic. -/
theorem add_commit_need_open_transaction (t : TransactionManager) (rid : Nat) :
    (t.curTrans = -1 →
       t.add rid = .panic .panicIndex ∧ t.commit = .panic .panicIndex) ∧
    (0 ≤ t.curTrans → t.curTrans.toNat < t.transList.length →
       (∃ t1, t.add rid = .ok t1) ∧ t.commit ≠ .panic .panicIndex) := by
  constructor
  · intro hcur
    constructor
    · unfold TransactionManager.add
      rw [if_neg]
      intro hcon
      rw [hcur] at hcon
      exact absurd hcon.1 (by decide)
    · unfold TransactionManager.commit
      rw [if_neg]
      intro hcon
      rw [hcur] at hcon
      exact absurd hcon.1 (by decide)
  · intro h0 hlen
    constructor
    · unfold TransactionManager.add
      rw [if_pos ⟨h0, hlen⟩]
      exact ⟨_, rfl⟩
    · unfold TransactionManager.commit
      rw [if_pos ⟨h0, hlen⟩]
      split
      · decide
      · unfold commitBody
        split
        · simp
        · split
          · simp
          · simp

/-- Witness for C10 at concrete states: the fresh manager (curTrans = -1)
panics in both `add` and `commit`; with an open slot both proceed. -/
theorem add_commit_need_open_transaction_witness :
    (({ closedState with logFile := some freshLog } :
         TransactionManager).add 7 = .panic .panicIndex ∧
     ({ closedState with logFile := some freshLog } :
         TransactionManager).commit = .panic .panicIndex) ∧
    ((∃ t1, commitFailState.add 7 = .ok t1) ∧
     commitFailState.commit ≠ .panic .panicIndex) :=
  ⟨(add_commit_need_open_transaction
      { closedState with logFile := some freshLog } 7).1 rfl,
   (add_commit_need_open_transaction commitFailState 7).2
     (by decide) (by decide)⟩

/-! ### C6: construction-time recovery policy -/

/-- An owner with no failures, used by concrete scenarios. -/
def emptyOwner : StorageFile := ⟨[], [], [], 0⟩

/-- An on-disk log pre-seeded with the wrong magic bytes `0xFF 0xFF`. -/
def badMagicLog : LogFile := ⟨[0xFF, 0xFF], [], none, 0⟩

/-- An on-disk log whose single frame announces one record but holds none
(torn trailing frame). -/
def tornLog : LogFile := ⟨TRANSACTION_LOG_HEADER, [.count 1], none, 0⟩

/-- C6: for a manager constructed with `doRecover = true`: a log with a bad
magic header is tolerated — construction succeeds and the log is
re-initialised to the header-only state by `open()`; any other `recover()`
error aborts construction with that error; and recovery of a missing log
file succeeds with nothing to do. -/
theorem new_manager_recover_policy (o : StorageFile) (disk : Option LogFile) :
    (∀ lf, disk = some lf → lf.magic ≠ TRANSACTION_LOG_HEADER →
       NewTransactionManager o true disk = .ok (initManager o disk).openLog) ∧
    (∀ t1 e, (initManager o disk).recover = .err t1 e → e ≠ .badMagic →
       NewTransactionManager o true disk = .error e) ∧
    (disk = none →
       (initManager o disk).recover = .ok (initManager o disk) ∧
       NewTransactionManager o true disk = .ok (initManager o disk).openLog) := by
  refine ⟨?_, ?_, ?_⟩
  · intro lf hdisk hmagic
    have hrec : (initManager o disk).recover =
        .err (initManager o disk) .badMagic := by
      unfold TransactionManager.recover
      simp [initManager, hdisk, hmagic]
    unfold NewTransactionManager
    simp [hrec]
  · intro t1 e hrec hne
    unfold NewTransactionManager
    simp [hrec, hne]
  · intro hdisk
    have hrec : (initManager o disk).recover = .ok (initManager o disk) := by
      unfold TransactionManager.recover
      simp [initManager, hdisk]
    refine ⟨hrec, ?_⟩
    unfold NewTransactionManager
    simp [hrec]

/-- Witness for C6 at concrete inputs: a `0xFF 0xFF` log is tolerated, a
torn log aborts construction with the read error, and a missing log file
recovers trivially. -/
theorem new_manager_recover_policy_witness :
    NewTransactionManager emptyOwner true (some badMagicLog) =
      .ok (initManager emptyOwner (some badMagicLog)).openLog ∧
    NewTransactionManager emptyOwner true (some tornLog) = .error .ioRead ∧
    NewTransactionManager emptyOwner true none =
      .ok (initManager emptyOwner none).openLog :=
  ⟨(new_manager_recover_policy emptyOwner (some badMagicLog)).1 badMagicLog
      rfl (by decide),
   (new_manager_recover_policy emptyOwner (some tornLog)).2.1
      (initManager emptyOwner (some tornLog)) .ioRead (by decide) (by decide),
   ((new_manager_recover_policy emptyOwner none).2.2 rfl).2⟩

/-! ### C3: recover swallows apply errors -/

theorem recoverGo_err_kind : ∀ (fuel : Nat) (t : TransactionManager)
    (items : List LogItem) (t' : TransactionManager) (e : Failure),
    recoverGo fuel t items = .err t' e → e = .ioRead := by
  intro fuel
  induction fuel with
  | zero =>
      intro t items t' e h
      match items with
      | [] => simp [recoverGo] at h
      | _ :: _ =>
          simp only [recoverGo] at h
          injection h with h1 h2
          exact h2.symm
  | succ k ih =>
      intro t items t' e h
      match items with
      | [] => simp [recoverGo] at h
      | .count n :: rest =>
          simp only [recoverGo] at h
          split at h
          · injection h with h1 h2
            exact h2.symm
          · split at h
            · exact ih _ _ _ _ h
            · exact ih _ _ _ _ h
            · exact absurd h (by simp)
      | .image _ :: _ =>
          simp only [recoverGo] at h
          injection h with h1 h2
          exact h2.symm

/-- The record sitting in the crashed log of the C3 scenario. -/
def rec7 : Record := ⟨7, [65], false, 0⟩

/-- A manager at construction whose on-disk log holds one well-formed frame
with record 7, and whose owner fails to apply record 7. -/
def recoverFailState : TransactionManager :=
  initManager ⟨[], [7], [], 0⟩
    (some ⟨TRANSACTION_LOG_HEADER, [.count 1, .image rec7], none, 0⟩)

/-- C3 counterexample: during `recover()` the apply step
(`syncRecords` / `owner.writeRecord`) fails for record 7, yet `recover()`
returns success — the error is swallowed (the source comments "If
something goes wrong here ignore and try to do the rest"), contradicting
the claim that it is propagated. -/
theorem recover_swallows_apply_error_cex :
    recoverFailState.owner.writeRecord rec7 = .error (.ownerWrite 7) ∧
    syncRecordsVals recoverFailState [(7, rec7)] =
      .err recoverFailState (.ownerWrite 7) ∧
    recoverFailState.recover = .ok recoverFailState := by
  decide

/-- C3 amended: the only errors `recover()` ever returns are the bad-magic
error and read errors from parsing the log; errors from applying a frame's
records to the main file are deliberately swallowed. -/
theorem recover_error_kinds (t t' : TransactionManager) (e : Failure)
    (h : t.recover = .err t' e) : e = .badMagic ∨ e = .ioRead := by
  unfold TransactionManager.recover at h
  split at h
  · exact absurd h (by simp)
  · split at h
    · exact Or.inr (recoverGo_err_kind _ _ _ _ _ h)
    · injection h with h1 h2
      exact Or.inl h2.symm

/-- Witness for C3's amended theorem at a concrete input: a bad-magic log
makes `recover()` return `ErrBadMagic`, which the classification covers. -/
theorem recover_error_kinds_witness :
    (initManager emptyOwner (some badMagicLog)).recover =
      .err (initManager emptyOwner (some badMagicLog)) .badMagic ∧
    (Failure.badMagic = .badMagic ∨ Failure.badMagic = .ioRead) :=
  ⟨by decide,
   recover_error_kinds (initManager emptyOwner (some badMagicLog))
     (initManager emptyOwner (some badMagicLog)) .badMagic (by decide)⟩

/-! ### C2: drain failure semantics; start discards the drain error -/

theorem close_some_fields (t t1 : TransactionManager)
    (h : t.close = some t1) :
    t1.logFile = none ∧ t1.transList = t.transList ∧ t1.heap = t.heap ∧
    t1.owner = t.owner ∧ t1.curTrans = t.curTrans ∧
    t1.maxTrans = t.maxTrans := by
  unfold TransactionManager.close TransactionManager.syncFile at h
  rcases hlf : t.logFile with _ | lf
  · rw [hlf] at h
    simp at h
  · rw [hlf] at h
    obtain rfl := Option.some.inj h
    exact ⟨rfl, rfl, rfl, rfl, rfl, rfl⟩

theorem syncRecordsLive_err_fields : ∀ (ids : List Nat)
    (t t' : TransactionManager) (e : Failure),
    syncRecordsLive t ids = .err t' e →
    t'.logFile = t.logFile ∧ t'.transList = t.transList ∧
    ∃ rid, e = .ownerWrite rid := by
  intro ids
  induction ids with
  | nil =>
      intro t t' e h
      simp [syncRecordsLive] at h
  | cons rid rest ih =>
      intro t t' e h
      simp only [syncRecordsLive] at h
      split at h
      · rename_i e0 heq
        injection h with h1 h2
        unfold StorageFile.writeRecord at heq
        split at heq
        · injection heq with heq1
          rw [← h1, ← h2, ← heq1]
          exact ⟨rfl, rfl, _, rfl⟩
        · exact absurd heq (by simp)
      · rename_i o1 heq
        have := ih _ _ _ h
        exact ⟨this.1, this.2.1, this.2.2⟩

theorem drainSlots_clears : ∀ (slots : List (Option (List Nat)))
    (heap : List Record) (m : List Nat),
    (drainSlots heap m slots).2.2 = slots.map (fun _ => none) := by
  intro slots
  induction slots with
  | nil => intro heap m; rfl
  | cons s rest ih =>
      intro heap m
      match s with
      | none =>
          rcases hds : drainSlots heap m rest with ⟨h1, m1, r1⟩
          have hre := ih heap m
          rw [hds] at hre
          simp only [drainSlots]
          rw [hds]
          exact congrArg (List.cons none) hre
      | some slot =>
          rcases hdr : drainRecs heap m slot with ⟨h1, m1⟩
          rcases hds : drainSlots h1 m1 rest with ⟨h2, m2, r2⟩
          have hre := ih h1 m1
          rw [hds] at hre
          simp only [drainSlots]
          rw [hdr, hds]
          exact congrArg (List.cons none) hre

/-- C2 amended: an error from `owner.writeRecord` during a drain
(`syncLogFromMemory`) aborts the drain and is returned with the log file
left closed (`logFile` absent) and every slot cleared (records already
applied remain applied in the returned state); however, a
capacity-triggered drain failure inside `start()` IS silently ignored —
`start()` discards the returned error and proceeds to populate the fresh
slot with `curTrans = 0`. -/
theorem drain_failure_and_start_discard (t : TransactionManager) :
    (∀ t' e, t.syncLogFromMemory = .err t' e →
       t'.logFile = none ∧
       t'.transList = t.transList.map (fun _ => none) ∧
       ∃ rid, e = .ownerWrite rid) ∧
    (∀ t2 e, (t.maxTrans : Int) ≤ t.curTrans + 1 →
       TransactionManager.syncLogFromMemory
           { t with curTrans := t.curTrans + 1 } = .err t2 e →
       t.start = TransactionManager.populateSlot { t2 with curTrans := 0 }) := by
  constructor
  · intro t' e h
    unfold TransactionManager.syncLogFromMemory at h
    split at h
    · exact absurd h (by simp)
    · rename_i t1 hclose
      obtain ⟨hlf, htl, hh, _, _, _⟩ := close_some_fields t t1 hclose
      rcases hds : drainSlots t1.heap [] t1.transList with ⟨h1, m, slots1⟩
      rw [hds] at h
      simp only at h
      split at h
      · rename_i t3 e0 heq
        injection h with h1' h2'
        obtain ⟨hlf', htl', he'⟩ := syncRecordsLive_err_fields m _ _ _ heq
        subst h1' h2'
        refine ⟨?_, ?_, he'⟩
        · rw [hlf', hlf]
        · have hclr := drainSlots_clears t1.transList t1.heap []
          rw [hds] at hclr
          have hclr' : slots1 = List.map (fun _ => none) t1.transList := hclr
          rw [htl']
          exact hclr'.trans (congrArg (List.map (fun _ => none)) htl)
      · exact absurd h (by simp)
      · exact absurd h (by simp)
  · intro t2 e hcap hdrain
    unfold TransactionManager.start
    rw [if_pos hcap]
    rw [hdrain]

/-- Modelled from the spec: the claim's reading of `start()` under which a
capacity-triggered drain failure is not silently ignored — differs from the
source exactly in propagating the drain error. -/
def startSpec (t : TransactionManager) : MRes :=
  let t1 := { t with curTrans := t.curTrans + 1 }
  if (t1.maxTrans : Int) ≤ t1.curTrans then
    match t1.syncLogFromMemory with
    | .panic e => .panic e
    | .ok t2 => TransactionManager.populateSlot { t2 with curTrans := 0 }
    | .err t2 e => .err t2 e
  else
    t1.populateSlot

/-- A building manager at capacity (`maxTrans = 1`) whose single slot holds
records 2 and 3, with the owner set to fail applying record 3. -/
def drainFailState : TransactionManager :=
  { logFile := some freshLog,
    diskLog := some freshLog,
    curTrans := 0,
    transList := [some [2, 3]],
    maxTrans := 1,
    heap := [⟨2, [66], false, 1⟩, ⟨3, [67], false, 1⟩],
    owner := ⟨[], [3], [], 0⟩ }

/-- The state in which the failed drain of `drainFailState` returns its
error: record 2 already applied and released, the log closed, the slot
cleared, record 3 still counted. -/
def drainFailElided : TransactionManager :=
  { logFile := none,
    diskLog := some freshLog,
    curTrans := 1,
    transList := [none],
    maxTrans := 1,
    heap := [⟨2, [66], false, 0⟩, ⟨3, [67], false, 1⟩],
    owner := ⟨[(2, [66])], [3], [(2, true)], 0⟩ }

/-- The state in which `start()` on `drainFailState` actually returns —
successfully, although the capacity-triggered drain inside it failed. -/
def startAfterFailState : TransactionManager :=
  { drainFailElided with curTrans := 0, transList := [some []] }

/-- C2 counterexample: the capacity-triggered drain inside `start()` fails
with a `writeRecord` error, yet `start()` returns success — the error is
silently discarded (the spec-modelled `startSpec` would have propagated
it).  Also visible: the already-applied record 2 stays applied and the log
is left closed. -/
theorem start_swallows_drain_error_cex :
    TransactionManager.syncLogFromMemory
        { drainFailState with curTrans := 1 } =
      .err drainFailElided (.ownerWrite 3) ∧
    drainFailState.start = .ok startAfterFailState ∧
    startSpec drainFailState = .err drainFailElided (.ownerWrite 3) ∧
    startAfterFailState.logFile = none ∧
    startAfterFailState.curTrans = 0 ∧
    startAfterFailState.owner.mainFile = [(2, [66])] := by
  decide

/-- Witness for C2's amended theorem at the concrete failing drain. -/
theorem drain_failure_and_start_discard_witness :
    (drainFailElided.logFile = none ∧
     drainFailElided.transList =
       ({ drainFailState with curTrans := 1 } :
           TransactionManager).transList.map (fun _ => none) ∧
     ∃ rid, Failure.ownerWrite 3 = Failure.ownerWrite rid) ∧
    drainFailState.start =
      TransactionManager.populateSlot { drainFailElided with curTrans := 0 } :=
  ⟨(drain_failure_and_start_discard
      { drainFailState with curTrans := 1 }).1 drainFailElided
      (.ownerWrite 3) (by decide),
   (drain_failure_and_start_discard drainFailState).2 drainFailElided
      (.ownerWrite 3) (by decide) (by decide)⟩

/-! ### C8: when the capacity drain fires -/

/-- Iterate `start()` the given number of times, stopping at the first
non-success. -/
def startN : Nat → TransactionManager → MRes
  | 0, t => .ok t
  | n + 1, t =>
      match t.start with
      | .ok t1 => startN n t1
      | .err t1 e => .err t1 e
      | .panic e => .panic e

/-- A freshly constructed manager with capacity 2 (`curTrans = -1`, empty
slots, open header-only log). -/
def freshCap2 : TransactionManager :=
  { logFile := some freshLog, diskLog := none, curTrans := -1,
    transList := [none, none], maxTrans := 2, heap := [],
    owner := emptyOwner }

/-- `freshCap2` after one `start()`. -/
def freshCap2a : TransactionManager :=
  { freshCap2 with curTrans := 0, transList := [some [], none] }

/-- `freshCap2` after two `start()` calls — still undrained. -/
def freshCap2b : TransactionManager :=
  { freshCap2 with curTrans := 1, transList := [some [], some []] }

/-- C8 counterexample: on a fresh manager with capacity `maxTrans = 2`,
after the `maxTrans`-th (second) call to `start()` no drain has occurred —
the owner is untouched (no main-file sync), both slots remain populated,
the log handle is unchanged and `cur = 1 ≠ 0`; the drain only fires on the
`(maxTrans+1)`-th start. -/
theorem capacity_drain_not_at_maxTrans_cex :
    freshCap2.start = .ok freshCap2a ∧
    freshCap2a.start = .ok freshCap2b ∧
    freshCap2b.curTrans = 1 ∧
    freshCap2b.owner.syncs = freshCap2.owner.syncs ∧
    freshCap2b.owner = freshCap2.owner ∧
    freshCap2b.logFile = freshCap2.logFile ∧
    freshCap2b.transList = [some [], some []] := by
  decide

/-- C8 amended: starting from construction (`cur = -1`), the first
`maxTrans` calls to `start()` populate slots `0 .. maxTrans-1` with no
drain (owner untouched, `cur = maxTrans-1`); the `(maxTrans+1)`-th start
triggers the drain before populating the new slot, leaving `cur = 0`, the
fresh slot empty, all other slots cleared, the main file synced once and a
fresh header-only log (shown for the code's capacity
`DEFAULT_TRANS_IN_LOG = 10` and an arbitrary owner). -/
theorem capacity_drain_after_max_starts (o : StorageFile) :
    startN DEFAULT_TRANS_IN_LOG ((initManager o none).openLog) =
      .ok { logFile := some freshLog, diskLog := none,
            curTrans := 9,
            transList := List.replicate 10 (some []),
            maxTrans := 10, heap := [], owner := o } ∧
    startN (DEFAULT_TRANS_IN_LOG + 1) ((initManager o none).openLog) =
      .ok { logFile := some freshLog, diskLog := some freshLog,
            curTrans := 0,
            transList := some [] :: List.replicate 9 none,
            maxTrans := 10, heap := [],
            owner := { o with syncs := o.syncs + 1 } } := by
  constructor
  · rfl
  · rfl

/-! ### C4: within a recovery frame, the later duplicate wins -/

/-- The last record of the list whose id is `i` (the image that survives
the per-frame `recMap` inserts). -/
def lastFrameRec (rs : List Record) (i : Nat) : Option Record :=
  rs.foldl (fun a r => if r.rid = i then some r else a) none

/-- The per-frame `recMap` built by the reading loop of `recover()`. -/
def frameRecMap (rs : List Record) : List (Nat × Record) :=
  rs.foldl (fun m r => assocSet m r.rid r) []

theorem foldl_choice_override {α β : Type} (f : β → Nat) (v : β → α)
    (i : Nat) : ∀ (l : List β) (a : Option α),
    l.foldl (fun acc b => if f b = i then some (v b) else acc) a =
      match l.foldl (fun acc b => if f b = i then some (v b) else acc) none with
      | some x => some x
      | none => a := by
  intro l
  induction l with
  | nil => intro a; rfl
  | cons b rest ih =>
      intro a
      simp only [List.foldl_cons]
      by_cases hb : f b = i
      · rw [if_pos hb, if_pos hb, ih (some (v b))]
        cases rest.foldl (fun acc b => if f b = i then some (v b) else acc)
            none with
        | none => rfl
        | some x => rfl
      · rw [if_neg hb, if_neg hb]
        exact ih a

theorem assocGet_foldl_set {α β : Type} (f : β → Nat) (v : β → α)
    (i : Nat) : ∀ (l : List β) (acc : List (Nat × α)),
    assocGet (l.foldl (fun m b => assocSet m (f b) (v b)) acc) i =
      match l.foldl (fun a b => if f b = i then some (v b) else a) none with
      | some x => some x
      | none => assocGet acc i := by
  intro l
  induction l with
  | nil => intro acc; rfl
  | cons b rest ih =>
      intro acc
      simp only [List.foldl_cons]
      rw [ih (assocSet acc (f b) (v b))]
      rw [foldl_choice_override f v i rest (if f b = i then some (v b) else none)]
      cases hrest : rest.foldl (fun a b => if f b = i then some (v b) else a)
          none with
      | some x => rfl
      | none =>
          rw [assocGet_assocSet]
          by_cases hb : f b = i
          · simp [hb]
          · simp [hb]

theorem foldl_choice_none {α β : Type} (f : β → Nat) (v : β → α) (i : Nat) :
    ∀ (l : List β), (∀ b ∈ l, ¬ f b = i) → ∀ (a : Option α),
    l.foldl (fun acc b => if f b = i then some (v b) else acc) a = a := by
  intro l
  induction l with
  | nil => intro _ a; rfl
  | cons b rest ih =>
      intro hall a
      simp only [List.foldl_cons]
      rw [if_neg (hall b (by simp))]
      exact ih (fun b' hb' => hall b' (by simp [hb'])) a

theorem mem_assocSet {α : Type} (m : List (Nat × α)) (k : Nat) (x : α) :
    ∀ p ∈ assocSet m k x, p ∈ m ∨ p = (k, x) := by
  induction m with
  | nil =>
      intro p hp
      simp only [assocSet, List.mem_singleton] at hp
      exact Or.inr hp
  | cons q rest ih =>
      intro p hp
      obtain ⟨qk, qv⟩ := q
      simp only [assocSet] at hp
      split at hp
      · rcases List.mem_cons.mp hp with h | h
        · exact Or.inr (by rename_i hq; rw [h, hq])
        · exact Or.inl (List.mem_cons_of_mem _ h)
      · rcases List.mem_cons.mp hp with h | h
        · exact Or.inl (by simp [h])
        · rcases ih p h with h' | h'
          · exact Or.inl (List.mem_cons_of_mem _ h')
          · exact Or.inr h'

theorem keys_assocSet_sub {α : Type} (m : List (Nat × α)) (k : Nat) (x : α) :
    ∀ j ∈ (assocSet m k x).map Prod.fst, j ∈ m.map Prod.fst ∨ j = k := by
  intro j hj
  obtain ⟨p, hp, hpj⟩ := List.mem_map.mp hj
  rcases mem_assocSet m k x p hp with h | h
  · exact Or.inl (List.mem_map.mpr ⟨p, h, hpj⟩)
  · exact Or.inr (by rw [← hpj, h])

theorem nodup_keys_assocSet {α : Type} (m : List (Nat × α)) (k : Nat)
    (x : α) (hm : (m.map Prod.fst).Nodup) :
    ((assocSet m k x).map Prod.fst).Nodup := by
  induction m with
  | nil => simp [assocSet]
  | cons q rest ih =>
      obtain ⟨qk, qv⟩ := q
      simp only [assocSet]
      split
      · simpa using hm
      · simp only [List.map_cons, List.nodup_cons] at hm ⊢
        refine ⟨?_, ih hm.2⟩
        intro hmem
        rcases keys_assocSet_sub rest k x qk hmem with h | h
        · exact hm.1 h
        · rename_i hne
          exact hne h

theorem frameRecMap_coherent (rs : List Record) :
    ∀ acc : List (Nat × Record), (∀ p ∈ acc, p.2.rid = p.1) →
    ∀ p ∈ rs.foldl (fun m r => assocSet m r.rid r) acc, p.2.rid = p.1 := by
  induction rs with
  | nil => intro acc hacc p hp; exact hacc p hp
  | cons r rest ih =>
      intro acc hacc p hp
      simp only [List.foldl_cons] at hp
      refine ih (assocSet acc r.rid r) ?_ p hp
      intro q hq
      rcases mem_assocSet acc r.rid r q hq with h | h
      · exact hacc q h
      · rw [h]

theorem frameRecMap_nodup_keys (rs : List Record) :
    ∀ acc : List (Nat × Record), (acc.map Prod.fst).Nodup →
    (((rs.foldl (fun m r => assocSet m r.rid r) acc)).map Prod.fst).Nodup := by
  induction rs with
  | nil => intro acc hacc; exact hacc
  | cons r rest ih =>
      intro acc hacc
      simp only [List.foldl_cons]
      exact ih (assocSet acc r.rid r) (nodup_keys_assocSet acc r.rid r hacc)

theorem lastVal_eq_assocGet (i : Nat) :
    ∀ (m : List (Nat × Record)), (∀ p ∈ m, p.2.rid = p.1) →
    (m.map Prod.fst).Nodup →
    m.foldl (fun a p => if p.2.rid = i then some p.2.payload else a) none =
      (assocGet m i).map Record.payload := by
  intro m
  induction m with
  | nil => intro _ _; rfl
  | cons q rest ih =>
      intro hco hnd
      obtain ⟨qk, qr⟩ := q
      have hqco : qr.rid = qk := hco (qk, qr) (by simp)
      simp only [List.map_cons, List.nodup_cons] at hnd
      simp only [List.foldl_cons, assocGet]
      by_cases hk : qk = i
      · rw [if_pos (by rw [hqco, hk]), if_pos hk]
        refine foldl_choice_none (fun p => p.2.rid) (fun p => p.2.payload) i
          rest ?_ (some qr.payload)
        intro p hp hpi
        have hpi' : p.2.rid = i := hpi
        have hp1 : p.1 = i := by
          rw [← hco p (List.mem_cons_of_mem _ hp)]
          exact hpi'
        exact hnd.1 (by rw [hk]; exact List.mem_map.mpr ⟨p, hp, hp1⟩)
      · rw [if_neg (by rw [hqco]; exact hk), if_neg hk]
        exact ih (fun p hp => hco p (List.mem_cons_of_mem _ hp)) hnd.2

theorem lastFrameRec_of_mem (i : Nat) :
    ∀ rs : List Record, i ∈ rs.map Record.rid →
    ∃ r, lastFrameRec rs i = some r ∧ r.rid = i := by
  intro rs
  induction rs with
  | nil => intro h; simp at h
  | cons r rest ih =>
      intro hmem
      unfold lastFrameRec at ih ⊢
      simp only [List.foldl_cons]
      by_cases hrest : i ∈ rest.map Record.rid
      · obtain ⟨r', hr', hrid⟩ := ih hrest
        rw [foldl_choice_override Record.rid (fun r => r) i rest
              (if r.rid = i then some r else none)]
        rw [hr']
        exact ⟨r', rfl, hrid⟩
      · have hri : r.rid = i := by
          simp only [List.map_cons, List.mem_cons] at hmem
          rcases hmem with h | h
          · exact h.symm
          · exact absurd h hrest
        rw [if_pos hri]
        rw [foldl_choice_none Record.rid (fun r => r) i rest ?hn (some r)]
        · exact ⟨r, rfl, hri⟩
        · intro b hb hbi
          exact hrest (by rw [← hbi]; exact List.mem_map.mpr ⟨b, hb, rfl⟩)

theorem syncRecordsVals_ok : ∀ (entries : List (Nat × Record))
    (t : TransactionManager),
    (∀ p ∈ entries, p.2.rid ∉ t.owner.failIds) →
    ∃ o', syncRecordsVals t entries = .ok { t with owner := o' } ∧
      o'.failIds = t.owner.failIds ∧ o'.releases = t.owner.releases ∧
      o'.syncs = t.owner.syncs ∧
      o'.mainFile = entries.foldl
        (fun mf p => assocSet mf p.2.rid p.2.payload) t.owner.mainFile := by
  intro entries
  induction entries with
  | nil =>
      intro t _
      exact ⟨t.owner, rfl, rfl, rfl, rfl, rfl⟩
  | cons p rest ih =>
      intro t hfail
      obtain ⟨k, r⟩ := p
      have hwr : t.owner.writeRecord r =
          .ok { t.owner with
                mainFile := assocSet t.owner.mainFile r.rid r.payload } := by
        unfold StorageFile.writeRecord
        rw [if_neg (hfail (k, r) (by simp))]
      simp only [syncRecordsVals, hwr]
      obtain ⟨o', h1, h2, h3, h4, h5⟩ := ih
        { t with owner := { t.owner with
            mainFile := assocSet t.owner.mainFile r.rid r.payload } }
        (by intro q hq
            exact hfail q (List.mem_cons_of_mem _ hq))
      exact ⟨o', h1, h2, h3, h4, by simpa using h5⟩

/-- The per-frame reading loop on a well-formed frame: reading
`rs.length` records consumes exactly the frame's images and produces the
`assocSet`-fold map. -/
theorem readFrame_run : ∀ (rs : List Record) (acc : List (Nat × Record))
    (rest : List LogItem),
    readFrame rs.length acc (rs.map .image ++ rest) =
      some (rs.foldl (fun m r => assocSet m r.rid r) acc, rest) := by
  intro rs
  induction rs with
  | nil => intro acc rest; rfl
  | cons r rest' ih =>
      intro acc rest
      simp only [List.map_cons, List.length_cons, List.cons_append, readFrame,
        List.foldl_cons]
      exact ih (assocSet acc r.rid r) rest

/-- C4: when the same record id occurs more than once within a single
recovery frame, the later occurrence overwrites the earlier one in the
frame's `recMap`, so after replaying the frame the main file holds the
frame's last image of that id. -/
theorem recover_frame_later_wins (t : TransactionManager) (lf : LogFile)
    (frame : List Record) (i : Nat)
    (hdisk : t.diskLog = some lf)
    (hmagic : lf.magic = TRANSACTION_LOG_HEADER)
    (hbody : lf.contents = .count (frame.length : Int) :: frame.map .image)
    (hfail : t.owner.failIds = [])
    (hin : i ∈ frame.map Record.rid) :
    ∃ t' r, t.recover = .ok t' ∧
      lastFrameRec frame i = some r ∧ r.rid = i ∧
      assocGet (frameRecMap frame) i = some r ∧
      assocGet t'.owner.mainFile i = some r.payload := by
  obtain ⟨r, hlast, hrid⟩ := lastFrameRec_of_mem i frame hin
  have hco := frameRecMap_coherent frame [] (by simp)
  have hnd := frameRecMap_nodup_keys frame [] (by simp)
  have hmapget : assocGet (frameRecMap frame) i = some r := by
    unfold frameRecMap
    rw [assocGet_foldl_set Record.rid (fun r => r) i frame []]
    unfold lastFrameRec at hlast
    rw [hlast]
  obtain ⟨o', hok, _, _, _, hmf⟩ := syncRecordsVals_ok (frameRecMap frame) t
    (by intro p hp; rw [hfail]; exact List.not_mem_nil _)
  refine ⟨{ t with owner := o' }, r, ?_, hlast, hrid, hmapget, ?_⟩
  · unfold TransactionManager.recover
    rw [hdisk]
    simp only
    rw [if_pos hmagic, hbody]
    simp only [List.length_cons]
    simp only [recoverGo]
    have hrf : readFrame ((frame.length : Int)).toNat []
        (frame.map .image) = some (frameRecMap frame, []) := by
      have := readFrame_run frame [] []
      rw [List.append_nil] at this
      simpa [frameRecMap] using this
    rw [hrf]
    simp only [hok]
    simp only [recoverGo]
    rw [hdisk]
  · rw [hmf]
    rw [assocGet_foldl_set (fun p => p.2.rid) (fun p => p.2.payload) i
          (frameRecMap frame) t.owner.mainFile]
    rw [lastVal_eq_assocGet i (frameRecMap frame) hco hnd]
    rw [hmapget]
    rfl

/-- The literal scenario of the claim: one frame committing id 5 with
payload `"X"` then id 5 with payload `"Y"`. -/
def dupFrame : List Record := [⟨5, [88], false, 0⟩, ⟨5, [89], false, 0⟩]

/-- A construction-time manager whose on-disk log holds the duplicate
frame. -/
def dupFrameState : TransactionManager :=
  initManager emptyOwner
    (some ⟨TRANSACTION_LOG_HEADER,
           .count (dupFrame.length : Int) :: dupFrame.map .image, none, 0⟩)

/-- Witness for C4 at the claim's literal scenario: replaying the frame
`add(5,"X"); add(5,"Y")` leaves id 5 holding `"Y"` (payload `[89]`). -/
theorem recover_frame_later_wins_witness :
    ∃ t' r, dupFrameState.recover = .ok t' ∧
      lastFrameRec dupFrame 5 = some r ∧ r.rid = 5 ∧
      assocGet (frameRecMap dupFrame) 5 = some r ∧
      assocGet t'.owner.mainFile 5 = some r.payload :=
  recover_frame_later_wins dupFrameState
    ⟨TRANSACTION_LOG_HEADER,
     .count (dupFrame.length : Int) :: dupFrame.map .image, none, 0⟩
    dupFrame 5 rfl rfl rfl rfl (by decide)

/-! ### C5: drain coalescing keeps the first-seen image -/

/-- All record occurrences of the non-nil slots, in scan order. -/
def slotOccs : List (Option (List Nat)) → List Nat
  | [] => []
  | none :: rest => slotOccs rest
  | some s :: rest => s ++ slotOccs rest

/-- First-seen deduplication continuing from an already-seen list — the
shape of the drain's `recMap` key sequence. -/
def dedupKeep : List Nat → List Nat → List Nat
  | seen, [] => seen
  | seen, x :: xs =>
      if x ∈ seen then dedupKeep seen xs else dedupKeep (seen ++ [x]) xs

/-- How many `DecTransCount()` calls the coalescing scan performs on id `i`
for the occurrence list `occs`, having already seen `m`: every occurrence
when the id is already in the map, every occurrence but the first
otherwise. -/
def extraDecs (m : List Nat) (i : Nat) (occs : List Nat) : Nat :=
  if i ∈ m then occs.count i else occs.count i - 1

/-- The in-transaction counter of the heap record with the given id. -/
def heapCount (h : List Record) (i : Nat) : Option Int :=
  (heapGet h i).map Record.transCount

theorem heapGet_some_rid : ∀ (h : List Record) (i : Nat) (r : Record),
    heapGet h i = some r → r.rid = i := by
  intro h
  induction h with
  | nil => intro i r hr; simp [heapGet] at hr
  | cons q rest ih =>
      intro i r hr
      simp only [heapGet] at hr
      split at hr
      · rename_i hq
        injection hr with hr1
        rw [← hr1]
        exact hq
      · exact ih i r hr

theorem heapCount_heapModify_dec (h : List Record) (x i : Nat) :
    heapCount (heapModify h x Record.decTransCount) i =
      if x = i then (heapCount h x).map (fun c => c - 1)
      else heapCount h i := by
  unfold heapCount
  rw [heapGet_heapModify h x i Record.decTransCount (fun r => rfl)]
  by_cases hxi : x = i
  · rw [if_pos hxi, if_pos hxi]
    cases heapGet h x with
    | none => rfl
    | some r => rfl
  · rw [if_neg hxi, if_neg hxi]

theorem drainRecs_map_eq : ∀ (slot : List Nat) (heap : List Record)
    (m : List Nat), (drainRecs heap m slot).2 = dedupKeep m slot := by
  intro slot
  induction slot with
  | nil => intro heap m; rfl
  | cons x xs ih =>
      intro heap m
      simp only [drainRecs, dedupKeep]
      by_cases hx : x ∈ m
      · rw [if_pos hx, if_pos hx]
        exact ih _ m
      · rw [if_neg hx, if_neg hx]
        exact ih _ _

theorem drainRecs_count : ∀ (slot : List Nat) (heap : List Record)
    (m : List Nat) (i : Nat),
    heapCount (drainRecs heap m slot).1 i =
      (heapCount heap i).map (fun c => c - (extraDecs m i slot : Int)) := by
  intro slot
  induction slot with
  | nil =>
      intro heap m i
      have hz : extraDecs m i [] = 0 := by
        unfold extraDecs
        split <;> simp [List.count_nil]
      rw [hz]
      cases hg : heapGet heap i with
      | none => simp [drainRecs, heapCount, hg]
      | some r => simp [drainRecs, heapCount, hg]
  | cons x xs ih =>
      intro heap m i
      simp only [drainRecs]
      by_cases hx : x ∈ m
      · rw [if_pos hx]
        rw [ih _ m i]
        rw [heapCount_heapModify_dec]
        by_cases hxi : x = i
        · subst hxi
          have hed : extraDecs m x (x :: xs) = extraDecs m x xs + 1 := by
            unfold extraDecs
            rw [if_pos hx, if_pos hx, List.count_cons_self]
          rw [hed, if_pos rfl]
          cases hg : heapGet heap x with
          | none => simp [heapCount, hg]
          | some r =>
              simp only [heapCount, hg, Option.map_some']
              congr 1
              push_cast
              ring
        · have hne : i ≠ x := fun hcon => hxi hcon.symm
          have hcnt : (x :: xs).count i = xs.count i := by
            rw [List.count_cons]
            simp [hne, hxi]
          have hed : extraDecs m i (x :: xs) = extraDecs m i xs := by
            unfold extraDecs
            rw [hcnt]
          rw [hed, if_neg hxi]
      · rw [if_neg hx]
        rw [ih heap (m ++ [x]) i]
        by_cases hxi : x = i
        · subst hxi
          have hed : extraDecs m x (x :: xs) = extraDecs (m ++ [x]) x xs := by
            unfold extraDecs
            rw [if_neg hx, if_pos (by simp), List.count_cons_self]
            omega
          rw [hed]
        · have hne : i ≠ x := fun hcon => hxi hcon.symm
          have hcnt : (x :: xs).count i = xs.count i := by
            rw [List.count_cons]
            simp [hne, hxi]
          have hmm : i ∈ m ++ [x] ↔ i ∈ m := by
            simp [hne]
          have hed : extraDecs m i (x :: xs) = extraDecs (m ++ [x]) i xs := by
            unfold extraDecs
            rw [hcnt]
            by_cases him : i ∈ m
            · rw [if_pos him, if_pos (hmm.mpr him)]
            · rw [if_neg him, if_neg (fun hc => him (hmm.mp hc))]
          rw [hed]

theorem drainRecs_append : ∀ (a b : List Nat) (heap : List Record)
    (m : List Nat),
    drainRecs heap m (a ++ b) =
      drainRecs (drainRecs heap m a).1 (drainRecs heap m a).2 b := by
  intro a
  induction a with
  | nil => intro b heap m; rfl
  | cons x xs ih =>
      intro b heap m
      simp only [List.cons_append, drainRecs]
      by_cases hx : x ∈ m
      · rw [if_pos hx, if_pos hx]
        exact ih b _ m
      · rw [if_neg hx, if_neg hx]
        exact ih b heap (m ++ [x])

theorem drainSlots_parts : ∀ (slots : List (Option (List Nat)))
    (heap : List Record) (m : List Nat),
    (drainSlots heap m slots).1 = (drainRecs heap m (slotOccs slots)).1 ∧
    (drainSlots heap m slots).2.1 = (drainRecs heap m (slotOccs slots)).2 := by
  intro slots
  induction slots with
  | nil => intro heap m; exact ⟨rfl, rfl⟩
  | cons s rest ih =>
      intro heap m
      match s with
      | none =>
          rcases hds : drainSlots heap m rest with ⟨h1, m1, r1⟩
          have hih := ih heap m
          rw [hds] at hih
          simp only [drainSlots, slotOccs]
          rw [hds]
          exact hih
      | some slot =>
          rcases hdr : drainRecs heap m slot with ⟨h1, m1⟩
          rcases hds : drainSlots h1 m1 rest with ⟨h2, m2, r2⟩
          have hih := ih h1 m1
          rw [hds] at hih
          simp only [drainSlots, slotOccs]
          rw [hdr, hds, drainRecs_append slot (slotOccs rest) heap m, hdr]
          exact hih

/-- C5: during `syncLogFromMemory` the slots are scanned in order; a record
occurrence whose id is already present in `recMap` gets `decTransCount()`
on that occurrence while the first-seen entry is kept (the map is exactly
the first-seen deduplication of the occurrence sequence, and is what the
drain then applies to the main file); occurrences not yet in the map are
inserted; each scanned slot is set to empty.  Net effect on the heap: each
id loses one trans-count per occurrence beyond its first. -/
theorem drain_coalesce_first_seen (heap : List Record)
    (slots : List (Option (List Nat))) :
    (drainSlots heap [] slots).2.1 = dedupKeep [] (slotOccs slots) ∧
    (drainSlots heap [] slots).2.2 = slots.map (fun _ => none) ∧
    ∀ i, heapCount (drainSlots heap [] slots).1 i =
      (heapCount heap i).map
        (fun c => c - (((slotOccs slots).count i - 1 : Nat) : Int)) := by
  obtain ⟨h1eq, m1eq⟩ := drainSlots_parts slots heap []
  refine ⟨?_, drainSlots_clears slots heap [], ?_⟩
  · rw [m1eq, drainRecs_map_eq]
  · intro i
    rw [h1eq, drainRecs_count (slotOccs slots) heap [] i]
    have hext : extraDecs [] i (slotOccs slots) = (slotOccs slots).count i - 1 := by
      unfold extraDecs
      rw [if_neg (List.not_mem_nil i)]
    rw [hext]

/-! ### C7: rollback (`syncLogFromDisk`) -/

/-- The ids of the occurrence sequence kept at their last occurrence — the
positions where a balanced counter reaches zero during the discarding
scan. -/
def lastOcc : List Nat → List Nat
  | [] => []
  | x :: xs => if x ∈ xs then lastOcc xs else x :: lastOcc xs

theorem discardRecs_append : ∀ (a b : List Nat) (heap : List Record)
    (o : StorageFile),
    discardRecs heap o (a ++ b) =
      discardRecs (discardRecs heap o a).1 (discardRecs heap o a).2 b := by
  intro a
  induction a with
  | nil => intro b heap o; rfl
  | cons x xs ih =>
      intro b heap o
      simp only [List.cons_append, discardRecs]
      exact ih b _ _

theorem discardSlots_clears : ∀ (slots : List (Option (List Nat)))
    (heap : List Record) (o : StorageFile),
    (discardSlots heap o slots).2.2 = slots.map (fun _ => none) := by
  intro slots
  induction slots with
  | nil => intro heap o; rfl
  | cons s rest ih =>
      intro heap o
      match s with
      | none =>
          rcases hds : discardSlots heap o rest with ⟨h1, o1, r1⟩
          have hre := ih heap o
          rw [hds] at hre
          simp only [discardSlots]
          rw [hds]
          exact congrArg (List.cons none) hre
      | some slot =>
          rcases hdr : discardRecs heap o slot with ⟨h1, o1⟩
          rcases hds : discardSlots h1 o1 rest with ⟨h2, o2, r2⟩
          have hre := ih h1 o1
          rw [hds] at hre
          simp only [discardSlots]
          rw [hdr, hds]
          exact congrArg (List.cons none) hre

theorem discardSlots_parts : ∀ (slots : List (Option (List Nat)))
    (heap : List Record) (o : StorageFile),
    (discardSlots heap o slots).1 = (discardRecs heap o (slotOccs slots)).1 ∧
    (discardSlots heap o slots).2.1 =
      (discardRecs heap o (slotOccs slots)).2 := by
  intro slots
  induction slots with
  | nil => intro heap o; exact ⟨rfl, rfl⟩
  | cons s rest ih =>
      intro heap o
      match s with
      | none =>
          rcases hds : discardSlots heap o rest with ⟨h1, o1, r1⟩
          have hih := ih heap o
          rw [hds] at hih
          simp only [discardSlots, slotOccs]
          rw [hds]
          exact hih
      | some slot =>
          rcases hdr : discardRecs heap o slot with ⟨h1, o1⟩
          rcases hds : discardSlots h1 o1 rest with ⟨h2, o2, r2⟩
          have hih := ih h1 o1
          rw [hds] at hih
          simp only [discardSlots, slotOccs]
          rw [hdr, hds, discardRecs_append slot (slotOccs rest) heap o, hdr]
          exact hih

theorem discardRecs_spec : ∀ (occs : List Nat) (heap : List Record)
    (o : StorageFile),
    (∀ i, i ∈ occs → ∃ r, heapGet heap i = some r ∧
        r.transCount = (occs.count i : Int)) →
    (discardRecs heap o occs).2.releases =
      o.releases ++ (lastOcc occs).map (fun i => (i, false)) ∧
    (discardRecs heap o occs).2.mainFile = o.mainFile ∧
    (discardRecs heap o occs).2.failIds = o.failIds ∧
    (discardRecs heap o occs).2.syncs = o.syncs ∧
    ∀ i, heapCount (discardRecs heap o occs).1 i =
      (heapCount heap i).map (fun c => c - (occs.count i : Int)) := by
  intro occs
  induction occs with
  | nil =>
      intro heap o _
      refine ⟨by simp [discardRecs, lastOcc], rfl, rfl, rfl, ?_⟩
      intro i
      cases hg : heapGet heap i with
      | none => simp [discardRecs, heapCount, hg]
      | some r => simp [discardRecs, heapCount, hg]
  | cons x xs ih =>
      intro heap o hbal
      obtain ⟨r, hgr, hcr⟩ := hbal x (by simp)
      have hgx : heapGet (heapModify heap x Record.decTransCount) x =
          some (Record.decTransCount r) := by
        rw [heapGet_heapModify heap x x Record.decTransCount (fun r => rfl)]
        rw [if_pos rfl, hgr]
        rfl
      have hrnow : heapGetD (heapModify heap x Record.decTransCount) x =
          Record.decTransCount r := by
        unfold heapGetD
        rw [hgx]
        rfl
      have hcnow : (Record.decTransCount r).transCount = (xs.count x : Int) := by
        unfold Record.decTransCount
        simp only
        rw [hcr, List.count_cons_self]
        push_cast
        ring
      have hbal' : ∀ i, i ∈ xs →
          ∃ r', heapGet (heapModify heap x Record.decTransCount) i = some r' ∧
            r'.transCount = (xs.count i : Int) := by
        intro i hi
        by_cases hxi : x = i
        · subst hxi
          exact ⟨Record.decTransCount r, hgx, hcnow⟩
        · obtain ⟨r', hgr', hcr'⟩ := hbal i (by simp [hi])
          refine ⟨r', ?_, ?_⟩
          · rw [heapGet_heapModify heap x i Record.decTransCount (fun r => rfl),
                if_neg hxi]
            exact hgr'
          · rw [hcr', List.count_cons]
            have hne : i ≠ x := fun hcon => hxi hcon.symm
            simp [hne, hxi]
      by_cases hx : x ∈ xs
      · have hpos : 0 < xs.count x := List.count_pos_iff.mpr hx
        have hit : (Record.decTransCount r).inTransaction = true := by
          unfold Record.inTransaction
          rw [hcnow]
          simp only [decide_eq_true_eq]
          exact_mod_cast hpos
        simp only [discardRecs, hrnow, hit, if_pos]
        obtain ⟨h1, h2, h3, h4, h5⟩ := ih _ o hbal'
        refine ⟨?_, h2, h3, h4, ?_⟩
        · rw [h1]
          simp only [lastOcc]
          rw [if_pos hx]
        · intro i
          rw [h5 i, heapCount_heapModify_dec]
          by_cases hxi : x = i
          · subst hxi
            rw [if_pos rfl]
            cases hg : heapGet heap x with
            | none => simp [heapCount, hg]
            | some q =>
                simp only [heapCount, hg, Option.map_some']
                congr 1
                rw [List.count_cons_self]
                push_cast
                ring
          · rw [if_neg hxi]
            have hne : i ≠ x := fun hcon => hxi hcon.symm
            have hcnt : (x :: xs).count i = xs.count i := by
              rw [List.count_cons]
              simp [hne, hxi]
            rw [hcnt]
      · have hzero : xs.count x = 0 := by
          rw [List.count_eq_zero]
          exact hx
        have hit : (Record.decTransCount r).inTransaction = false := by
          unfold Record.inTransaction
          rw [hcnow, hzero]
          simp
        have hrid : (Record.decTransCount r).rid = x := heapGet_some_rid heap x r hgr
        simp only [discardRecs, hrnow, hit, Bool.false_eq_true, if_neg,
          if_false]
        obtain ⟨h1, h2, h3, h4, h5⟩ := ih _ (o.releaseInTrans (Record.decTransCount r) false) hbal'
        refine ⟨?_, ?_, ?_, ?_, ?_⟩
        · rw [h1]
          simp only [StorageFile.releaseInTrans, lastOcc]
          rw [if_neg hx, hrid]
          simp
        · rw [h2]; rfl
        · rw [h3]; rfl
        · rw [h4]; rfl
        · intro i
          rw [h5 i, heapCount_heapModify_dec]
          by_cases hxi : x = i
          · subst hxi
            rw [if_pos rfl]
            cases hg : heapGet heap x with
            | none => simp [heapCount, hg]
            | some q =>
                simp only [heapCount, hg, Option.map_some']
                congr 1
                rw [List.count_cons_self]
                push_cast
                ring
          · rw [if_neg hxi]
            have hne : i ≠ x := fun hcon => hxi hcon.symm
            have hcnt : (x :: xs).count i = xs.count i := by
              rw [List.count_cons]
              simp [hne, hxi]
            rw [hcnt]

/-- C7: `syncLogFromDisk` (rollback) closes the log, calls
`decTransCount()` once for every record occurrence in every non-empty
slot, calls `owner.releaseInTrans(record, dirty = false)` exactly when a
record's counter reaches zero — once per enrolled id, at its last
occurrence, under the balance invariant that each enrolled record's
counter equals its occurrence count — clears all slots, then replays the
on-disk log via `recover()` and reopens an empty log. -/
theorem rollback_semantics (t : TransactionManager) (lf : LogFile)
    (hlog : t.logFile = some lf)
    (hbal : ∀ i, i ∈ slotOccs t.transList →
       ∃ r, heapGet t.heap i = some r ∧
            r.transCount = ((slotOccs t.transList).count i : Int)) :
    ∃ h' o',
      (∀ i, heapCount h' i = (heapCount t.heap i).map
         (fun c => c - ((slotOccs t.transList).count i : Int))) ∧
      o'.releases = t.owner.releases ++
        (lastOcc (slotOccs t.transList)).map (fun i => (i, false)) ∧
      o'.mainFile = t.owner.mainFile ∧ o'.failIds = t.owner.failIds ∧
      o'.syncs = t.owner.syncs ∧
      t.syncLogFromDisk =
        (match TransactionManager.recover
            { t with logFile := none, diskLog := some lf,
                     heap := h', owner := o',
                     transList := t.transList.map (fun _ => none) } with
         | .err t3 e => .err t3 e
         | .panic e => .panic e
         | .ok t3 => .ok t3.openLog) := by
  obtain ⟨hrel, hmf, hfi, hsy, hcnt⟩ :=
    discardRecs_spec (slotOccs t.transList) t.heap t.owner hbal
  obtain ⟨hp1, hp2⟩ := discardSlots_parts t.transList t.heap t.owner
  refine ⟨(discardRecs t.heap t.owner (slotOccs t.transList)).1,
          (discardRecs t.heap t.owner (slotOccs t.transList)).2,
          hcnt, hrel, hmf, hfi, hsy, ?_⟩
  unfold TransactionManager.syncLogFromDisk
  rw [(close_semantics t).1 lf hlog]
  dsimp only
  rcases hd : discardSlots t.heap t.owner t.transList with ⟨h1, o1, slots1⟩
  rw [hd] at hp1 hp2
  have hcl := discardSlots_clears t.transList t.heap t.owner
  rw [hd] at hcl
  have hh1 : h1 = (discardRecs t.heap t.owner (slotOccs t.transList)).1 := hp1
  have ho1 : o1 = (discardRecs t.heap t.owner (slotOccs t.transList)).2 := hp2
  have hs1 : slots1 = t.transList.map (fun _ => none) := hcl
  dsimp only
  rw [hh1, ho1, hs1]

/-- The on-disk log of the rollback scenario: one committed frame holding
id 9 with payload `"Q"`. -/
def rollbackLog : LogFile :=
  ⟨TRANSACTION_LOG_HEADER, [.count 1, .image ⟨9, [81], true, 1⟩], none, 2⟩

/-- The rollback scenario state: id 9 was committed with `"Q"`, then a new
transaction re-added id 9 with `"R"` in memory (counter 1, one slot
occurrence). -/
def rollbackState : TransactionManager :=
  { logFile := some rollbackLog,
    diskLog := some freshLog,
    curTrans := 0,
    transList := [some [9], none],
    maxTrans := 2,
    heap := [⟨9, [82], true, 1⟩],
    owner := emptyOwner }

/-- Witness for C7 at the rollback scenario. -/
theorem rollback_semantics_witness :
    ∃ h' o',
      (∀ i, heapCount h' i = (heapCount rollbackState.heap i).map
         (fun c => c - ((slotOccs rollbackState.transList).count i : Int))) ∧
      o'.releases = rollbackState.owner.releases ++
        (lastOcc (slotOccs rollbackState.transList)).map (fun i => (i, false)) ∧
      o'.mainFile = rollbackState.owner.mainFile ∧
      o'.failIds = rollbackState.owner.failIds ∧
      o'.syncs = rollbackState.owner.syncs ∧
      rollbackState.syncLogFromDisk =
        (match TransactionManager.recover
            { rollbackState with
                logFile := none
                diskLog := some rollbackLog
                heap := h'
                owner := o'
                transList := rollbackState.transList.map (fun _ => none) } with
         | .err t3 e => .err t3 e
         | .panic e => .panic e
         | .ok t3 => .ok t3.openLog) :=
  rollback_semantics rollbackState rollbackLog rfl
    (by
      intro i hi
      have h9 : i = 9 := by
        simpa [rollbackState, slotOccs] using hi
      subst h9
      exact ⟨⟨9, [82], true, 1⟩, rfl, by decide⟩)

end EliasDB
